import Mathlib

/-!
# Verification of the HealthcareDB contract

Shallow embedding of the canonical (richer) `HealthcareDB` Solidity contract
(`smart-contracts/contracts/HealthcareDB.sol`): encrypted-record pointers with
role-based access control, an append-only per-record access-grant ledger, a
denormalized access cache, derived indices, and a system-wide pause switch.

Addresses and `bytes32` record ids are modelled as naturals (`0` is the zero
address).  `keccak256 (abi.encodePacked …)` is modelled as an injective pairing
of its six inputs — the standard idealization of a collision-free cryptographic
hash.  Solidity mappings are total functions with pointwise update; a
never-written `PatientRecord` slot is `none` (the zero-initialized struct,
whose `isActive` is `false`).  `require` failures are `Except.error` values,
one constructor per distinct revert reason; modifier and `require` order
follows the source exactly.  Events, gas and reentrancy are not modelled (the
`nonReentrant` modifier has no observable effect in a sequential embedding).
-/

namespace HealthcareDB

/-- Account addresses, modelled as naturals; `0` is the zero address. -/
abbrev Addr := Nat

/-- `bytes32` record identifiers, modelled as naturals. -/
abbrev RecordId := Nat

/-- `struct PatientRecord` of the contract. -/
structure PatientRecord where
  recordId : RecordId
  patientAddress : Addr
  createdBy : Addr
  timestamp : Nat
  lastUpdated : Nat
  encryptedDataHash : String
  dataLocation : String
  isActive : Bool
  deriving Repr, DecidableEq

/-- `struct AccessGrant` of the contract. -/
structure AccessGrant where
  organization : Addr
  grantedAt : Nat
  revokedAt : Nat
  isRevoked : Bool
  deriving Repr, DecidableEq

/-- The block environment a transaction executes in
(`block.timestamp`, `block.prevrandao`, `block.number`). -/
structure BlockEnv where
  timestamp : Nat
  prevrandao : Nat
  number : Nat
  deriving Repr, DecidableEq

/-- The contract storage: every state variable of `HealthcareDB`, plus the
role memberships inherited from `AccessControl` and the `Pausable` flag. -/
structure HState where
  orgRole : Addr → Bool
  adminRole : Addr → Bool
  records : RecordId → Option PatientRecord
  recordAccess : RecordId → List AccessGrant
  patientRecords : Addr → List RecordId
  organizationRecords : Addr → List RecordId
  hasAccessCache : RecordId → Addr → Bool
  allRecordIds : List RecordId
  registeredOrganizations : List Addr
  paused : Bool

/-- One constructor per distinct revert reason of the contract
(including the OpenZeppelin `AccessControl`/`Pausable` reverts). -/
inductive HError where
  | missingRole
  | enforcedPause
  | expectedPause
  | invalidAddress
  | emptyString
  | stringTooLong
  | recordInactive
  | alreadyRegistered
  | emptyBatch
  | batchTooLarge
  | idCollision
  | invalidOrganization
  | callerNoAccess
  | alreadyGranted
  | selfRevoke
  | orgNoAccess
  | accessNotFound
  | notCreatorOrAdmin
  deriving Repr, DecidableEq

/-- Pointwise update of a Solidity mapping. -/
def updMap {β : Type} (m : Nat → β) (k : Nat) (v : β) : Nat → β :=
  fun a => if a = k then v else m a

/-- Pointwise update of a doubly-keyed Solidity mapping. -/
def updMap2 (m : Nat → Nat → Bool) (k₁ k₂ : Nat) (v : Bool) : Nat → Nat → Bool :=
  fun a b => if a = k₁ ∧ b = k₂ then v else m a b

/-- `_records[r].isActive`: reading a missing slot yields the zeroed struct,
whose `isActive` is `false`. -/
def recActive (slot : Option PatientRecord) : Bool :=
  match slot with
  | some r => r.isActive
  | none => false

/-- The record-id derivation
`keccak256(abi.encodePacked(patient, sender, timestamp, prevrandao, number, _allRecordIds.length))`,
idealized as an injective pairing of the six inputs. -/
def recIdHash (p c t pr bn n : Nat) : Nat :=
  Nat.pair p (Nat.pair c (Nat.pair t (Nat.pair pr (Nat.pair bn n))))

/-- The scan of `_recordAccess[r]` performed by `_hasAccess`: is there an
entry for `o` that is not revoked? -/
def listHasUnrevoked (gs : List AccessGrant) (o : Addr) : Bool :=
  gs.any fun g => g.organization == o && !g.isRevoked

/-- `_hasAccess` of the contract: activity check, cache short-circuit, then
the authoritative scan of the grant list. -/
def _hasAccess (s : HState) (r : RecordId) (o : Addr) : Bool :=
  if !recActive (s.records r) then false
  else if !s.hasAccessCache r o then false
  else listHasUnrevoked (s.recordAccess r) o

/-- External view `hasAccess`. -/
def hasAccess (s : HState) (r : RecordId) (o : Addr) : Bool :=
  _hasAccess s r o

/-- The constructor: the deployer receives the admin role. -/
def initState (deployer : Addr) : HState where
  orgRole := fun _ => false
  adminRole := fun a => a == deployer
  records := fun _ => none
  recordAccess := fun _ => []
  patientRecords := fun _ => []
  organizationRecords := fun _ => []
  hasAccessCache := fun _ _ => false
  allRecordIds := []
  registeredOrganizations := []
  paused := false

/-- `registerOrganization` (modifiers in source order:
`onlyRole(ADMIN_ROLE)`, `validAddress`, `whenNotPaused`, then the duplicate
check in the body). -/
def registerOrganization (s : HState) (caller org : Addr) : Except HError HState :=
  if !s.adminRole caller then .error .missingRole
  else if org = 0 then .error .invalidAddress
  else if s.paused then .error .enforcedPause
  else if s.orgRole org then .error .alreadyRegistered
  else .ok { s with
    orgRole := updMap s.orgRole org true,
    registeredOrganizations := s.registeredOrganizations ++ [org] }

/-- Body of one iteration of the `batchRegisterOrganizations` loop. -/
def regOne (s : HState) (a : Addr) : HState :=
  if a != 0 && !s.orgRole a then
    { s with
      orgRole := updMap s.orgRole a true,
      registeredOrganizations := s.registeredOrganizations ++ [a] }
  else s

/-- `batchRegisterOrganizations`. -/
def batchRegisterOrganizations (s : HState) (caller : Addr) (orgs : List Addr) :
    Except HError HState :=
  if !s.adminRole caller then .error .missingRole
  else if s.paused then .error .enforcedPause
  else if orgs.length = 0 then .error .emptyBatch
  else if 50 < orgs.length then .error .batchTooLarge
  else .ok (orgs.foldl regOne s)

/-- The fresh grant entry pushed by `createRecord` and `grantAccess`:
`AccessGrant({organization: o, grantedAt: t, revokedAt: 0, isRevoked: false})`. -/
def freshGrant (o : Addr) (t : Nat) : AccessGrant :=
  { organization := o, grantedAt := t, revokedAt := 0, isRevoked := false }

/-- The record id `createRecord` derives for the current transaction. -/
def newRecordId (s : HState) (caller : Addr) (blk : BlockEnv) (patientAddress : Addr) :
    RecordId :=
  recIdHash patientAddress caller blk.timestamp blk.prevrandao blk.number
    s.allRecordIds.length

/-- The post-state written by a successful `createRecord`. -/
def createdState (s : HState) (caller : Addr) (blk : BlockEnv)
    (patientAddress : Addr) (encryptedDataHash dataLocation : String)
    (recordId : RecordId) : HState :=
  { s with
    records := updMap s.records recordId (some
      { recordId := recordId
        patientAddress := patientAddress
        createdBy := caller
        timestamp := blk.timestamp
        lastUpdated := blk.timestamp
        encryptedDataHash := encryptedDataHash
        dataLocation := dataLocation
        isActive := true }),
    recordAccess := updMap s.recordAccess recordId
      (s.recordAccess recordId ++ [freshGrant caller blk.timestamp]),
    hasAccessCache := updMap2 s.hasAccessCache recordId caller true,
    patientRecords := updMap s.patientRecords patientAddress
      (s.patientRecords patientAddress ++ [recordId]),
    organizationRecords := updMap s.organizationRecords caller
      (s.organizationRecords caller ++ [recordId]),
    allRecordIds := s.allRecordIds ++ [recordId] }

/-- `createRecord` (modifiers in source order: `onlyRole(ORGANIZATION_ROLE)`,
`nonReentrant`, `whenNotPaused`, `validAddress`, `validString` twice; then id
derivation, collision check, storage writes). -/
def createRecord (s : HState) (caller : Addr) (blk : BlockEnv)
    (patientAddress : Addr) (encryptedDataHash dataLocation : String) :
    Except HError (RecordId × HState) :=
  if !s.orgRole caller then .error .missingRole
  else if s.paused then .error .enforcedPause
  else if patientAddress = 0 then .error .invalidAddress
  else if encryptedDataHash.utf8ByteSize = 0 then .error .emptyString
  else if 256 < encryptedDataHash.utf8ByteSize then .error .stringTooLong
  else if dataLocation.utf8ByteSize = 0 then .error .emptyString
  else if 256 < dataLocation.utf8ByteSize then .error .stringTooLong
  else if recActive (s.records (newRecordId s caller blk patientAddress)) then
    .error .idCollision
  else .ok (newRecordId s caller blk patientAddress,
    createdState s caller blk patientAddress encryptedDataHash dataLocation
      (newRecordId s caller blk patientAddress))

/-- `grantAccess` (modifiers: `onlyRole`, `nonReentrant`, `whenNotPaused`,
`recordExists`, `validAddress`; body requires in source order). -/
def grantAccess (s : HState) (caller : Addr) (blk : BlockEnv)
    (recordId : RecordId) (organization : Addr) : Except HError HState :=
  if !s.orgRole caller then .error .missingRole
  else if s.paused then .error .enforcedPause
  else if !recActive (s.records recordId) then .error .recordInactive
  else if organization = 0 then .error .invalidAddress
  else if !s.orgRole organization then .error .invalidOrganization
  else if !_hasAccess s recordId caller then .error .callerNoAccess
  else if _hasAccess s recordId organization then .error .alreadyGranted
  else .ok { s with
    recordAccess := updMap s.recordAccess recordId
      (s.recordAccess recordId ++ [freshGrant organization blk.timestamp]),
    hasAccessCache := updMap2 s.hasAccessCache recordId organization true,
    organizationRecords := updMap s.organizationRecords organization
      (s.organizationRecords organization ++ [recordId]) }

/-- The `revokeAccess` loop: mark the first unrevoked entry for `o` as
revoked (setting `revokedAt := t`); `none` when no such entry exists. -/
def revokeFirst (gs : List AccessGrant) (o : Addr) (t : Nat) :
    Option (List AccessGrant) :=
  match gs with
  | [] => none
  | g :: rest =>
    if g.organization == o && !g.isRevoked then
      some ({ g with isRevoked := true, revokedAt := t } :: rest)
    else
      (revokeFirst rest o t).map (g :: ·)

/-- `revokeAccess` (modifiers: `onlyRole`, `nonReentrant`, `whenNotPaused`,
`recordExists`, `validAddress`; body requires, then the revocation loop which
also clears the cache entry, reverting `Access not found` if no entry
matched). -/
def revokeAccess (s : HState) (caller : Addr) (blk : BlockEnv)
    (recordId : RecordId) (organization : Addr) : Except HError HState :=
  if !s.orgRole caller then .error .missingRole
  else if s.paused then .error .enforcedPause
  else if !recActive (s.records recordId) then .error .recordInactive
  else if organization = 0 then .error .invalidAddress
  else if !_hasAccess s recordId caller then .error .callerNoAccess
  else if organization = caller then .error .selfRevoke
  else if !_hasAccess s recordId organization then .error .orgNoAccess
  else
    match revokeFirst (s.recordAccess recordId) organization blk.timestamp with
    | none => .error .accessNotFound
    | some gs => .ok { s with
        recordAccess := updMap s.recordAccess recordId gs,
        hasAccessCache := updMap2 s.hasAccessCache recordId organization false }

/-- `updateRecord` (modifiers: `onlyRole`, `nonReentrant`, `whenNotPaused`,
`recordExists`, `validString` twice; body requires `_hasAccess`). -/
def updateRecord (s : HState) (caller : Addr) (blk : BlockEnv)
    (recordId : RecordId) (encryptedDataHash dataLocation : String) :
    Except HError HState :=
  if !s.orgRole caller then .error .missingRole
  else if s.paused then .error .enforcedPause
  else if !recActive (s.records recordId) then .error .recordInactive
  else if encryptedDataHash.utf8ByteSize = 0 then .error .emptyString
  else if 256 < encryptedDataHash.utf8ByteSize then .error .stringTooLong
  else if dataLocation.utf8ByteSize = 0 then .error .emptyString
  else if 256 < dataLocation.utf8ByteSize then .error .stringTooLong
  else if !_hasAccess s recordId caller then .error .callerNoAccess
  else
    match s.records recordId with
    | none => .error .recordInactive
    | some r0 => .ok { s with
        records := updMap s.records recordId (some
          { r0 with
            encryptedDataHash := encryptedDataHash
            dataLocation := dataLocation
            lastUpdated := blk.timestamp }) }

/-- `deactivateRecord` (modifiers: `nonReentrant`, `whenNotPaused`,
`recordExists` — note: no role modifier; body requires creator-or-admin). -/
def deactivateRecord (s : HState) (caller : Addr) (recordId : RecordId) :
    Except HError HState :=
  if s.paused then .error .enforcedPause
  else if !recActive (s.records recordId) then .error .recordInactive
  else
    match s.records recordId with
    | none => .error .recordInactive
    | some r0 =>
      if r0.createdBy == caller || s.adminRole caller then
        .ok { s with
          records := updMap s.records recordId (some { r0 with isActive := false }) }
      else .error .notCreatorOrAdmin

/-- `pause` (`onlyRole(ADMIN_ROLE)`; `_pause` reverts when already paused). -/
def pause (s : HState) (caller : Addr) : Except HError HState :=
  if !s.adminRole caller then .error .missingRole
  else if s.paused then .error .enforcedPause
  else .ok { s with paused := true }

/-- `unpause` (`onlyRole(ADMIN_ROLE)`; `_unpause` reverts when not paused). -/
def unpause (s : HState) (caller : Addr) : Except HError HState :=
  if !s.adminRole caller then .error .missingRole
  else if !s.paused then .error .expectedPause
  else .ok { s with paused := false }

/-- View `getRecord`: returns the storage slot unconditionally. -/
def getRecord (s : HState) (r : RecordId) : Option PatientRecord :=
  s.records r

/-- View `getRecordAccess`: the organizations of the unrevoked entries, in
grant order (the source's two-pass array fill produces exactly this list). -/
def getRecordAccess (s : HState) (r : RecordId) : List Addr :=
  ((s.recordAccess r).filter fun g => !g.isRevoked).map (·.organization)

/-- View `getPatientRecords`. -/
def getPatientRecords (s : HState) (p : Addr) : List RecordId :=
  s.patientRecords p

/-- View `getOrganizationRecords`. -/
def getOrganizationRecords (s : HState) (o : Addr) : List RecordId :=
  s.organizationRecords o

/-- View `getPatientRecordCount`. -/
def getPatientRecordCount (s : HState) (p : Addr) : Nat :=
  (s.patientRecords p).length

/-- View `getTotalRecordCount`. -/
def getTotalRecordCount (s : HState) : Nat :=
  s.allRecordIds.length

/-- View `getOrganizationCount`. -/
def getOrganizationCount (s : HState) : Nat :=
  s.registeredOrganizations.length

/-- View `getAllOrganizations`. -/
def getAllOrganizations (s : HState) : List Addr :=
  s.registeredOrganizations

/-- The cache-free access check: record activity plus the authoritative scan
of the grant list (this is also precisely the `hasAccess` of the simpler
contract variant, which has no cache). -/
def uncachedHasAccess (s : HState) (r : RecordId) (o : Addr) : Bool :=
  if !recActive (s.records r) then false
  else listHasUnrevoked (s.recordAccess r) o

/-- One external transaction of the contract that succeeds. -/
inductive Step : HState → HState → Prop where
  | register {s s' : HState} (caller org : Addr) :
      registerOrganization s caller org = .ok s' → Step s s'
  | batchRegister {s s' : HState} (caller : Addr) (orgs : List Addr) :
      batchRegisterOrganizations s caller orgs = .ok s' → Step s s'
  | create {s s' : HState} (caller : Addr) (blk : BlockEnv) (p : Addr)
      (dh dl : String) (id : RecordId) :
      createRecord s caller blk p dh dl = .ok (id, s') → Step s s'
  | grant {s s' : HState} (caller : Addr) (blk : BlockEnv) (r : RecordId) (o : Addr) :
      grantAccess s caller blk r o = .ok s' → Step s s'
  | revoke {s s' : HState} (caller : Addr) (blk : BlockEnv) (r : RecordId) (o : Addr) :
      revokeAccess s caller blk r o = .ok s' → Step s s'
  | update {s s' : HState} (caller : Addr) (blk : BlockEnv) (r : RecordId)
      (dh dl : String) :
      updateRecord s caller blk r dh dl = .ok s' → Step s s'
  | deactivate {s s' : HState} (caller : Addr) (r : RecordId) :
      deactivateRecord s caller r = .ok s' → Step s s'
  | doPause {s s' : HState} (caller : Addr) : pause s caller = .ok s' → Step s s'
  | doUnpause {s s' : HState} (caller : Addr) : unpause s caller = .ok s' → Step s s'

/-- States reachable from a freshly deployed contract by successful
transactions. -/
inductive Reachable : HState → Prop where
  | init (deployer : Addr) : Reachable (initState deployer)
  | step {s s' : HState} : Reachable s → Step s s' → Reachable s'

/-- Reflexive-transitive closure of `Step`: some (possibly empty) sequence of
successful transactions. -/
inductive Steps : HState → HState → Prop where
  | refl (s : HState) : Steps s s
  | tail {s t u : HState} : Steps s t → Step t u → Steps s u

theorem Reachable.of_steps {s t : HState} (hs : Reachable s) (h : Steps s t) :
    Reachable t := by
  induction h with
  | refl => exact hs
  | tail _ hstep ih => exact ih.step hstep

/-- The sub-list of `gs` whose entries concern organization `o`. -/
def entriesFor (gs : List AccessGrant) (o : Addr) : List AccessGrant :=
  gs.filter fun g => g.organization == o

/-- Number of currently-unrevoked grant entries for organization `o`. -/
def countActive (gs : List AccessGrant) (o : Addr) : Nat :=
  ((entriesFor gs o).filter fun g => !g.isRevoked).length

/-- The state invariant maintained by every transaction. -/
structure Inv (s : HState) : Prop where
  lastActive : ∀ r o, ∀ g ∈ (entriesFor (s.recordAccess r) o).dropLast,
    g.isRevoked = true
  cacheSound : ∀ r o, listHasUnrevoked (s.recordAccess r) o = true →
    s.hasAccessCache r o = true
  idsIndexed : ∀ i (h : i < s.allRecordIds.length),
    ∃ p c t pr bn, s.allRecordIds.get ⟨i, h⟩ = recIdHash p c t pr bn i
  recordsDom : ∀ r, (s.records r).isSome = true → r ∈ s.allRecordIds
  accessDom : ∀ r, s.recordAccess r ≠ [] → r ∈ s.allRecordIds
  zeroNoOrg : s.orgRole 0 = false

theorem recIdHash_inj {p c t pr bn n p' c' t' pr' bn' n' : Nat}
    (h : recIdHash p c t pr bn n = recIdHash p' c' t' pr' bn' n') :
    p = p' ∧ c = c' ∧ t = t' ∧ pr = pr' ∧ bn = bn' ∧ n = n' := by
  simp only [recIdHash, Nat.pair_eq_pair] at h
  exact ⟨h.1, h.2.1, h.2.2.1, h.2.2.2.1, h.2.2.2.2.1, h.2.2.2.2.2⟩

/-- The freshly derived id is not among the already-allocated ids. -/
theorem freshId_not_mem {s : HState} (hinv : Inv s) (p c t pr bn : Nat) :
    recIdHash p c t pr bn s.allRecordIds.length ∉ s.allRecordIds := by
  intro hmem
  obtain ⟨i, hget⟩ := List.mem_iff_get.mp hmem
  obtain ⟨p', c', t', pr', bn', hval⟩ := hinv.idsIndexed i.1 i.2
  rw [Fin.eta, hget] at hval
  obtain ⟨-, -, -, -, -, hn⟩ := recIdHash_inj hval
  have hi := i.2
  omega

theorem listHasUnrevoked_iff {gs : List AccessGrant} {o : Addr} :
    listHasUnrevoked gs o = true ↔
      ∃ g ∈ gs, g.organization = o ∧ g.isRevoked = false := by
  simp [listHasUnrevoked, List.any_eq_true, Bool.and_eq_true]

theorem listHasUnrevoked_append {gs hs : List AccessGrant} {o : Addr} :
    listHasUnrevoked (gs ++ hs) o =
      (listHasUnrevoked gs o || listHasUnrevoked hs o) := by
  simp [listHasUnrevoked, List.any_append]

theorem entriesFor_append {gs hs : List AccessGrant} {o : Addr} :
    entriesFor (gs ++ hs) o = entriesFor gs o ++ entriesFor hs o := by
  simp [entriesFor, List.filter_append]

theorem listHasUnrevoked_entriesFor {gs : List AccessGrant} {o : Addr} :
    listHasUnrevoked (entriesFor gs o) o = listHasUnrevoked gs o := by
  induction gs with
  | nil => rfl
  | cons g rest ih =>
    simp only [entriesFor, List.filter_cons] at ih ⊢
    by_cases hg : (g.organization == o) = true
    · rw [if_pos hg]
      simp only [listHasUnrevoked, List.any_cons] at ih ⊢
      rw [ih]
    · rw [if_neg hg]
      simp only [listHasUnrevoked, List.any_cons] at ih ⊢
      rw [ih]
      simp only [Bool.not_eq_true] at hg
      simp [hg]

theorem _hasAccess_eq_true {s : HState} {r : RecordId} {o : Addr} :
    _hasAccess s r o = true ↔
      recActive (s.records r) = true ∧ s.hasAccessCache r o = true ∧
      listHasUnrevoked (s.recordAccess r) o = true := by
  unfold _hasAccess
  split_ifs with h1 h2 <;> simp_all

theorem registerOrganization_ok {s s' : HState} {caller org : Addr}
    (h : registerOrganization s caller org = .ok s') :
    s.adminRole caller = true ∧ org ≠ 0 ∧ s.paused = false ∧
    s.orgRole org = false ∧
    s' = { s with orgRole := updMap s.orgRole org true,
                  registeredOrganizations := s.registeredOrganizations ++ [org] } := by
  unfold registerOrganization at h
  split_ifs at h with h1 h2 h3 h4 <;> try exact Except.noConfusion h
  exact ⟨by simpa using h1, h2, by simpa using h3, by simpa using h4,
    (Except.ok.inj h).symm⟩

theorem createRecord_ok {s s' : HState} {caller p : Addr} {blk : BlockEnv}
    {dh dl : String} {id : RecordId}
    (h : createRecord s caller blk p dh dl = .ok (id, s')) :
    s.orgRole caller = true ∧ s.paused = false ∧ p ≠ 0 ∧
    id = newRecordId s caller blk p ∧
    recActive (s.records id) = false ∧
    s' = createdState s caller blk p dh dl id := by
  unfold createRecord at h
  split_ifs at h with h1 h2 h3 h4 h5 h6 h7 h8 <;> try exact Except.noConfusion h
  have hpair := Except.ok.inj h
  have hid : id = newRecordId s caller blk p := (congrArg Prod.fst hpair).symm
  have hst : s' = createdState s caller blk p dh dl (newRecordId s caller blk p) :=
    (congrArg Prod.snd hpair).symm
  subst hid
  exact ⟨by simpa using h1, by simpa using h2, h3, rfl, by simpa using h8, hst⟩

theorem grantAccess_ok {s s' : HState} {caller o : Addr} {blk : BlockEnv}
    {r : RecordId} (h : grantAccess s caller blk r o = .ok s') :
    s.orgRole caller = true ∧ s.paused = false ∧
    recActive (s.records r) = true ∧ o ≠ 0 ∧ s.orgRole o = true ∧
    _hasAccess s r caller = true ∧ _hasAccess s r o = false ∧
    s' = { s with
      recordAccess := updMap s.recordAccess r
        (s.recordAccess r ++ [freshGrant o blk.timestamp]),
      hasAccessCache := updMap2 s.hasAccessCache r o true,
      organizationRecords := updMap s.organizationRecords o
        (s.organizationRecords o ++ [r]) } := by
  unfold grantAccess at h
  split_ifs at h with h1 h2 h3 h4 h5 h6 h7 <;> try exact Except.noConfusion h
  exact ⟨by simpa using h1, by simpa using h2, by simpa using h3, h4,
    by simpa using h5, by simpa using h6, by simpa using h7,
    (Except.ok.inj h).symm⟩

theorem revokeAccess_ok {s s' : HState} {caller o : Addr} {blk : BlockEnv}
    {r : RecordId} (h : revokeAccess s caller blk r o = .ok s') :
    s.orgRole caller = true ∧ s.paused = false ∧
    recActive (s.records r) = true ∧ o ≠ 0 ∧
    _hasAccess s r caller = true ∧ o ≠ caller ∧ _hasAccess s r o = true ∧
    ∃ gs, revokeFirst (s.recordAccess r) o blk.timestamp = some gs ∧
      s' = { s with
        recordAccess := updMap s.recordAccess r gs,
        hasAccessCache := updMap2 s.hasAccessCache r o false } := by
  unfold revokeAccess at h
  split_ifs at h with h1 h2 h3 h4 h5 h6 h7 <;> try exact Except.noConfusion h
  refine ⟨by simpa using h1, by simpa using h2, by simpa using h3, h4,
    by simpa using h5, h6, by simpa using h7, ?_⟩
  cases hrf : revokeFirst (s.recordAccess r) o blk.timestamp with
  | none => rw [hrf] at h; exact Except.noConfusion h
  | some gs =>
    rw [hrf] at h
    exact ⟨gs, rfl, (Except.ok.inj h).symm⟩

theorem updateRecord_ok {s s' : HState} {caller : Addr} {blk : BlockEnv}
    {r : RecordId} {dh dl : String}
    (h : updateRecord s caller blk r dh dl = .ok s') :
    s.orgRole caller = true ∧ s.paused = false ∧
    recActive (s.records r) = true ∧ _hasAccess s r caller = true ∧
    ∃ r0, s.records r = some r0 ∧
      s' = { s with records := updMap s.records r (some
        { r0 with encryptedDataHash := dh, dataLocation := dl,
                  lastUpdated := blk.timestamp }) } := by
  unfold updateRecord at h
  split_ifs at h with h1 h2 h3 h4 h5 h6 h7 h8 <;> try exact Except.noConfusion h
  refine ⟨by simpa using h1, by simpa using h2, by simpa using h3,
    by simpa using h8, ?_⟩
  cases hrec : s.records r with
  | none => rw [hrec] at h; exact Except.noConfusion h
  | some r0 =>
    rw [hrec] at h
    exact ⟨r0, rfl, (Except.ok.inj h).symm⟩

theorem deactivateRecord_ok {s s' : HState} {caller : Addr} {r : RecordId}
    (h : deactivateRecord s caller r = .ok s') :
    s.paused = false ∧ recActive (s.records r) = true ∧
    ∃ r0, s.records r = some r0 ∧
      (r0.createdBy == caller || s.adminRole caller) = true ∧
      s' = { s with
        records := updMap s.records r (some { r0 with isActive := false }) } := by
  unfold deactivateRecord at h
  split_ifs at h with h1 h2 <;> try exact Except.noConfusion h
  refine ⟨by simpa using h1, by simpa using h2, ?_⟩
  cases hrec : s.records r with
  | none => rw [hrec] at h; exact Except.noConfusion h
  | some r0 =>
    rw [hrec] at h
    have h' : (if (r0.createdBy == caller || s.adminRole caller) = true then
        (Except.ok { s with
          records := updMap s.records r (some { r0 with isActive := false }) } :
          Except HError HState)
      else Except.error HError.notCreatorOrAdmin) = Except.ok s' := h
    split_ifs at h' with h3
    exact ⟨r0, rfl, h3, (Except.ok.inj h').symm⟩

theorem pause_ok {s s' : HState} {caller : Addr} (h : pause s caller = .ok s') :
    s.adminRole caller = true ∧ s.paused = false ∧ s' = { s with paused := true } := by
  unfold pause at h
  split_ifs at h with h1 h2 <;> try exact Except.noConfusion h
  exact ⟨by simpa using h1, by simpa using h2, (Except.ok.inj h).symm⟩

theorem unpause_ok {s s' : HState} {caller : Addr} (h : unpause s caller = .ok s') :
    s.adminRole caller = true ∧ s.paused = true ∧ s' = { s with paused := false } := by
  unfold unpause at h
  split_ifs at h with h1 h2 <;> try exact Except.noConfusion h
  exact ⟨by simpa using h1, by simpa using h2, (Except.ok.inj h).symm⟩

/-- The batch-registration fold touches only the role table and the
organization list. -/
theorem regFold_frame (orgs : List Addr) (s : HState) :
    (orgs.foldl regOne s).records = s.records ∧
    (orgs.foldl regOne s).recordAccess = s.recordAccess ∧
    (orgs.foldl regOne s).patientRecords = s.patientRecords ∧
    (orgs.foldl regOne s).organizationRecords = s.organizationRecords ∧
    (orgs.foldl regOne s).hasAccessCache = s.hasAccessCache ∧
    (orgs.foldl regOne s).allRecordIds = s.allRecordIds ∧
    (orgs.foldl regOne s).adminRole = s.adminRole ∧
    (orgs.foldl regOne s).paused = s.paused := by
  induction orgs generalizing s with
  | nil => exact ⟨rfl, rfl, rfl, rfl, rfl, rfl, rfl, rfl⟩
  | cons a rest ih =>
    have hone : (regOne s a).records = s.records ∧
        (regOne s a).recordAccess = s.recordAccess ∧
        (regOne s a).patientRecords = s.patientRecords ∧
        (regOne s a).organizationRecords = s.organizationRecords ∧
        (regOne s a).hasAccessCache = s.hasAccessCache ∧
        (regOne s a).allRecordIds = s.allRecordIds ∧
        (regOne s a).adminRole = s.adminRole ∧
        (regOne s a).paused = s.paused := by
      unfold regOne
      split_ifs <;> exact ⟨rfl, rfl, rfl, rfl, rfl, rfl, rfl, rfl⟩
    have hrest := ih (regOne s a)
    simp only [List.foldl_cons]
    exact ⟨hrest.1.trans hone.1, hrest.2.1.trans hone.2.1,
      hrest.2.2.1.trans hone.2.2.1, hrest.2.2.2.1.trans hone.2.2.2.1,
      hrest.2.2.2.2.1.trans hone.2.2.2.2.1,
      hrest.2.2.2.2.2.1.trans hone.2.2.2.2.2.1,
      hrest.2.2.2.2.2.2.1.trans hone.2.2.2.2.2.2.1,
      hrest.2.2.2.2.2.2.2.trans hone.2.2.2.2.2.2.2⟩

/-- The fold never grants the organization role to the zero address. -/
theorem regFold_zero (orgs : List Addr) (s : HState) (h : s.orgRole 0 = false) :
    (orgs.foldl regOne s).orgRole 0 = false := by
  induction orgs generalizing s with
  | nil => exact h
  | cons a rest ih =>
    simp only [List.foldl_cons]
    refine ih _ ?_
    unfold regOne
    split_ifs with hc
    · have ha : a ≠ 0 := by
        rcases Bool.and_eq_true .. |>.mp hc with ⟨h1, -⟩
        simpa using h1
      simp [updMap, Ne.symm ha, h]
    · exact h

theorem batchRegisterOrganizations_ok {s s' : HState} {caller : Addr}
    {orgs : List Addr} (h : batchRegisterOrganizations s caller orgs = .ok s') :
    s.adminRole caller = true ∧ s.paused = false ∧ s' = orgs.foldl regOne s := by
  unfold batchRegisterOrganizations at h
  split_ifs at h with h1 h2 h3 h4 <;> try exact Except.noConfusion h
  exact ⟨by simpa using h1, by simpa using h2, (Except.ok.inj h).symm⟩

theorem mem_entriesFor {gs : List AccessGrant} {o : Addr} {g : AccessGrant} :
    g ∈ entriesFor gs o ↔ g ∈ gs ∧ g.organization = o := by
  simp [entriesFor, List.mem_filter]

theorem all_revoked_iff {gs : List AccessGrant} {o : Addr} :
    listHasUnrevoked gs o = false ↔
      ∀ g ∈ gs, g.organization = o → g.isRevoked = true := by
  rw [← Bool.not_eq_true, listHasUnrevoked]
  simp [List.any_eq_true]

/-- If all entries of `l` except possibly the last are revoked, then `l` has
at most one unrevoked entry. -/
theorem filter_unrevoked_le_one {l : List AccessGrant}
    (hla : ∀ g ∈ l.dropLast, g.isRevoked = true) :
    (l.filter fun g => !g.isRevoked).length ≤ 1 := by
  cases hl : l.eq_nil_or_concat with
  | inl hnil => subst hnil; simp
  | inr hcons =>
    obtain ⟨l', a, rfl⟩ := hcons
    rw [List.concat_eq_append] at hla ⊢
    rw [List.dropLast_concat] at hla
    rw [List.filter_append]
    have : l'.filter (fun g => !g.isRevoked) = [] := by
      rw [List.filter_eq_nil_iff]
      intro g hg
      simp [hla g hg]
    rw [this]
    simpa using List.length_filter_le (fun g => !g.isRevoked) [a]

theorem countActive_le_one {gs : List AccessGrant} {o : Addr}
    (hla : ∀ g ∈ (entriesFor gs o).dropLast, g.isRevoked = true) :
    countActive gs o ≤ 1 :=
  filter_unrevoked_le_one hla

theorem revokeFirst_isSome {gs : List AccessGrant} {o : Addr} {t : Nat} :
    (revokeFirst gs o t).isSome = listHasUnrevoked gs o := by
  induction gs with
  | nil => rfl
  | cons g rest ih =>
    unfold revokeFirst
    rw [listHasUnrevoked, List.any_cons]
    split_ifs with hg
    · rw [hg]; rfl
    · rw [Bool.not_eq_true] at hg
      rw [hg]
      simpa [Option.isSome_map] using ih

theorem revokeFirst_spec {gs : List AccessGrant} {o : Addr} {t : Nat}
    {new : List AccessGrant} (h : revokeFirst gs o t = some new) :
    ∃ pre g post, gs = pre ++ g :: post ∧ g.organization = o ∧
      g.isRevoked = false ∧ listHasUnrevoked pre o = false ∧
      new = pre ++ { g with isRevoked := true, revokedAt := t } :: post := by
  induction gs generalizing new with
  | nil => exact Option.noConfusion h
  | cons g rest ih =>
    unfold revokeFirst at h
    split_ifs at h with hg
    · obtain ⟨horg, hrev⟩ := Bool.and_eq_true .. |>.mp hg
      refine ⟨[], g, rest, rfl, by simpa using horg, by simpa using hrev,
        rfl, ?_⟩
      simpa using (Option.some.inj h).symm
    · cases hrf : revokeFirst rest o t with
      | none => rw [hrf] at h; exact Option.noConfusion h
      | some new' =>
        rw [hrf] at h
        have hnew : new = g :: new' := by
          simpa using (Option.some.inj h).symm
        obtain ⟨pre, g', post, hsplit, horg, hrev, hpre, hnew'⟩ := ih hrf
        refine ⟨g :: pre, g', post, by rw [hsplit]; rfl, horg, hrev, ?_, ?_⟩
        · rw [listHasUnrevoked, List.any_cons, Bool.not_eq_true] at *
          rw [Bool.or_eq_false_iff]
          exact ⟨by simpa using hg, hpre⟩
        · rw [hnew, hnew']; rfl

/-- What `revokeAccess`'s loop does to the grant list, given the
at-most-one-active-entry invariant for the pair being revoked. -/
theorem revokeFirst_result {gs new : List AccessGrant} {o : Addr} {t : Nat}
    (hla : ∀ g ∈ (entriesFor gs o).dropLast, g.isRevoked = true)
    (h : revokeFirst gs o t = some new) :
    (∀ o', o' ≠ o → entriesFor new o' = entriesFor gs o') ∧
    (∀ g ∈ entriesFor new o, g.isRevoked = true) ∧
    listHasUnrevoked new o = false := by
  obtain ⟨pre, g, post, rfl, horg, hrev, hpre, rfl⟩ := revokeFirst_spec h
  have horgBeq : (g.organization == o) = true := by simp [horg]
  have hEgs : entriesFor (pre ++ g :: post) o =
      entriesFor pre o ++ g :: entriesFor post o := by
    simp [entriesFor, List.filter_append, List.filter_cons, horgBeq]
  have hEnew : entriesFor (pre ++ { g with isRevoked := true, revokedAt := t } :: post) o =
      entriesFor pre o ++ { g with isRevoked := true, revokedAt := t } :: entriesFor post o := by
    simp [entriesFor, List.filter_append, List.filter_cons, horgBeq]
  have hle := filter_unrevoked_le_one hla
  rw [hEgs, List.filter_append, List.filter_cons] at hle
  rw [if_pos (by simp [hrev])] at hle
  rw [List.length_append, List.length_cons] at hle
  have hpreNil : (entriesFor pre o).filter (fun g => !g.isRevoked) = [] :=
    List.length_eq_zero.mp (by omega)
  have hpostNil : (entriesFor post o).filter (fun g => !g.isRevoked) = [] :=
    List.length_eq_zero.mp (by omega)
  have hpreRev : ∀ x ∈ entriesFor pre o, x.isRevoked = true := by
    intro x hx
    by_contra hxr
    rw [Bool.not_eq_true] at hxr
    have : x ∈ (entriesFor pre o).filter (fun g => !g.isRevoked) :=
      List.mem_filter.mpr ⟨hx, by simp [hxr]⟩
    rw [hpreNil] at this
    exact absurd this (List.not_mem_nil x)
  have hpostRev : ∀ x ∈ entriesFor post o, x.isRevoked = true := by
    intro x hx
    by_contra hxr
    rw [Bool.not_eq_true] at hxr
    have : x ∈ (entriesFor post o).filter (fun g => !g.isRevoked) :=
      List.mem_filter.mpr ⟨hx, by simp [hxr]⟩
    rw [hpostNil] at this
    exact absurd this (List.not_mem_nil x)
  have hallRev : ∀ x ∈ entriesFor
      (pre ++ { g with isRevoked := true, revokedAt := t } :: post) o,
      x.isRevoked = true := by
    rw [hEnew]
    intro x hx
    rcases List.mem_append.mp hx with hx | hx
    · exact hpreRev x hx
    · rcases List.mem_cons.mp hx with hx | hx
      · rw [hx]
      · exact hpostRev x hx
  refine ⟨?_, hallRev, ?_⟩
  · intro o' ho'
    have hgBeq : (g.organization == o') = false := by
      simp [horg, Ne.symm ho']
    simp [entriesFor, List.filter_append, List.filter_cons, hgBeq]
  · rw [all_revoked_iff]
    intro x hx hxo
    exact hallRev x (mem_entriesFor.mpr ⟨hx, hxo⟩)

/-- When the record is active and `_hasAccess` is `false`, the authoritative
scan must be negative (the cache cannot under-report in an invariant state). -/
theorem scan_false_of_hasAccess_false {s : HState} {r : RecordId} {o : Addr}
    (hinv : Inv s) (hact : recActive (s.records r) = true)
    (h : _hasAccess s r o = false) :
    listHasUnrevoked (s.recordAccess r) o = false := by
  by_contra hscan
  rw [Bool.not_eq_false] at hscan
  have hc := hinv.cacheSound r o hscan
  unfold _hasAccess at h
  rw [hact] at h
  simp [hc, hscan] at h

theorem inv_init (d : Addr) : Inv (initState d) := by
  constructor
  · intro r o g hg
    simp [initState, entriesFor] at hg
  · intro r o h
    simp [initState, listHasUnrevoked] at h
  · intro i h
    simp [initState] at h
  · intro r h
    simp [initState] at h
  · intro r h
    simp [initState] at h
  · rfl

theorem inv_register {s s' : HState} {caller org : Addr} (hinv : Inv s)
    (h : registerOrganization s caller org = .ok s') : Inv s' := by
  obtain ⟨-, hnz, -, -, rfl⟩ := registerOrganization_ok h
  refine ⟨hinv.lastActive, hinv.cacheSound, hinv.idsIndexed, hinv.recordsDom,
    hinv.accessDom, ?_⟩
  simp only [updMap]
  rw [if_neg (Ne.symm hnz)]
  exact hinv.zeroNoOrg

theorem inv_batch {s s' : HState} {caller : Addr} {orgs : List Addr}
    (hinv : Inv s) (h : batchRegisterOrganizations s caller orgs = .ok s') :
    Inv s' := by
  obtain ⟨-, -, rfl⟩ := batchRegisterOrganizations_ok h
  obtain ⟨hrec, hacc, -, -, hcache, hids, -, -⟩ := regFold_frame orgs s
  refine ⟨?_, ?_, ?_, ?_, ?_, regFold_zero orgs s hinv.zeroNoOrg⟩
  · rw [hacc]; exact hinv.lastActive
  · rw [hacc, hcache]; exact hinv.cacheSound
  · rw [hids]; exact hinv.idsIndexed
  · rw [hrec, hids]; exact hinv.recordsDom
  · rw [hacc, hids]; exact hinv.accessDom

theorem inv_pause {s s' : HState} {caller : Addr} (hinv : Inv s)
    (h : pause s caller = .ok s') : Inv s' := by
  obtain ⟨-, -, rfl⟩ := pause_ok h
  exact ⟨hinv.lastActive, hinv.cacheSound, hinv.idsIndexed, hinv.recordsDom,
    hinv.accessDom, hinv.zeroNoOrg⟩

theorem inv_unpause {s s' : HState} {caller : Addr} (hinv : Inv s)
    (h : unpause s caller = .ok s') : Inv s' := by
  obtain ⟨-, -, rfl⟩ := unpause_ok h
  exact ⟨hinv.lastActive, hinv.cacheSound, hinv.idsIndexed, hinv.recordsDom,
    hinv.accessDom, hinv.zeroNoOrg⟩

theorem inv_update {s s' : HState} {caller : Addr} {blk : BlockEnv}
    {r : RecordId} {dh dl : String} (hinv : Inv s)
    (h : updateRecord s caller blk r dh dl = .ok s') : Inv s' := by
  obtain ⟨-, -, -, -, r0, hr0, rfl⟩ := updateRecord_ok h
  refine ⟨hinv.lastActive, hinv.cacheSound, hinv.idsIndexed, ?_,
    hinv.accessDom, hinv.zeroNoOrg⟩
  intro r' hr'
  simp only [updMap] at hr'
  by_cases hrr : r' = r
  · subst hrr
    exact hinv.recordsDom r' (by rw [hr0]; rfl)
  · rw [if_neg hrr] at hr'
    exact hinv.recordsDom r' hr'

theorem inv_deactivate {s s' : HState} {caller : Addr} {r : RecordId}
    (hinv : Inv s) (h : deactivateRecord s caller r = .ok s') : Inv s' := by
  obtain ⟨-, -, r0, hr0, -, rfl⟩ := deactivateRecord_ok h
  refine ⟨hinv.lastActive, hinv.cacheSound, hinv.idsIndexed, ?_,
    hinv.accessDom, hinv.zeroNoOrg⟩
  intro r' hr'
  simp only [updMap] at hr'
  by_cases hrr : r' = r
  · subst hrr
    exact hinv.recordsDom r' (by rw [hr0]; rfl)
  · rw [if_neg hrr] at hr'
    exact hinv.recordsDom r' hr'

theorem isSome_of_recActive {slot : Option PatientRecord}
    (h : recActive slot = true) : slot.isSome = true := by
  cases slot with
  | none => exact absurd h (by simp [recActive])
  | some _ => rfl

theorem inv_create {s s' : HState} {caller p : Addr} {blk : BlockEnv}
    {dh dl : String} {id : RecordId} (hinv : Inv s)
    (h : createRecord s caller blk p dh dl = .ok (id, s')) : Inv s' := by
  obtain ⟨-, -, -, hid, -, rfl⟩ := createRecord_ok h
  have hfresh : id ∉ s.allRecordIds := by
    rw [hid]
    exact freshId_not_mem hinv p caller blk.timestamp blk.prevrandao blk.number
  have hempty : s.recordAccess id = [] := by
    by_contra hne
    exact hfresh (hinv.accessDom id hne)
  refine ⟨?_, ?_, ?_, ?_, ?_, hinv.zeroNoOrg⟩
  · intro r o g hg
    simp only [createdState, updMap] at hg
    by_cases hrr : r = id
    · rw [if_pos hrr, hempty] at hg
      have hnil : (entriesFor ([] ++ [freshGrant caller blk.timestamp]) o).dropLast = [] := by
        unfold entriesFor
        rw [List.nil_append, List.filter_cons]
        split_ifs <;> rfl
      rw [hnil] at hg
      exact absurd hg (List.not_mem_nil g)
    · rw [if_neg hrr] at hg
      exact hinv.lastActive r o g hg
  · intro r o hsc
    simp only [createdState, updMap, updMap2] at hsc ⊢
    by_cases hrr : r = id
    · rw [if_pos hrr, hempty, List.nil_append] at hsc
      obtain ⟨g, hgmem, hgorg, -⟩ := listHasUnrevoked_iff.mp hsc
      rw [List.mem_singleton] at hgmem
      subst hgmem
      rw [if_pos ⟨hrr, hgorg.symm⟩]
    · rw [if_neg hrr] at hsc
      have := hinv.cacheSound r o hsc
      rw [if_neg (by intro hc; exact hrr hc.1)]
      exact this
  · intro i hi
    simp only [createdState] at hi ⊢
    rw [List.length_append, List.length_singleton] at hi
    by_cases hlt : i < s.allRecordIds.length
    · obtain ⟨p', c', t', pr', bn', hv⟩ := hinv.idsIndexed i hlt
      refine ⟨p', c', t', pr', bn', ?_⟩
      rw [List.get_eq_getElem] at hv ⊢
      rw [List.getElem_append_left hlt]
      exact hv
    · have hieq : i = s.allRecordIds.length := by omega
      subst hieq
      refine ⟨p, caller, blk.timestamp, blk.prevrandao, blk.number, ?_⟩
      rw [List.get_eq_getElem, List.getElem_concat_length]
      · exact hid
      · rfl
  · intro r hr
    simp only [createdState, updMap] at hr ⊢
    by_cases hrr : r = id
    · subst hrr
      exact List.mem_append_right _ (List.mem_singleton.mpr rfl)
    · rw [if_neg hrr] at hr
      exact List.mem_append_left _ (hinv.recordsDom r hr)
  · intro r hr
    simp only [createdState, updMap] at hr ⊢
    by_cases hrr : r = id
    · subst hrr
      exact List.mem_append_right _ (List.mem_singleton.mpr rfl)
    · rw [if_neg hrr] at hr
      exact List.mem_append_left _ (hinv.accessDom r hr)

theorem inv_grant {s s' : HState} {caller o : Addr} {blk : BlockEnv}
    {r : RecordId} (hinv : Inv s) (h : grantAccess s caller blk r o = .ok s') :
    Inv s' := by
  obtain ⟨-, -, hact, -, -, -, hno, rfl⟩ := grantAccess_ok h
  have hscan : listHasUnrevoked (s.recordAccess r) o = false :=
    scan_false_of_hasAccess_false hinv hact hno
  have hmem : r ∈ s.allRecordIds :=
    hinv.recordsDom r (isSome_of_recActive hact)
  refine ⟨?_, ?_, hinv.idsIndexed, hinv.recordsDom, ?_, hinv.zeroNoOrg⟩
  · intro r' o' g hg
    simp only [updMap] at hg
    by_cases hrr : r' = r
    · rw [if_pos hrr] at hg
      by_cases hoo : o' = o
      · rw [entriesFor_append] at hg
        have hsingle : entriesFor [freshGrant o blk.timestamp] o' =
            [freshGrant o blk.timestamp] := by
          simp [entriesFor, freshGrant, hoo]
        rw [hsingle, List.dropLast_concat] at hg
        obtain ⟨hgs, hgo⟩ := mem_entriesFor.mp hg
        exact all_revoked_iff.mp hscan g hgs (hgo.trans hoo)
      · rw [entriesFor_append] at hg
        have hnil : entriesFor [freshGrant o blk.timestamp] o' = [] := by
          simp [entriesFor, freshGrant, Ne.symm hoo]
        rw [hnil, List.append_nil] at hg
        exact hinv.lastActive r o' g hg
    · rw [if_neg hrr] at hg
      exact hinv.lastActive r' o' g hg
  · intro r' o' hsc
    simp only [updMap, updMap2] at hsc ⊢
    by_cases hrr : r' = r
    · rw [if_pos hrr] at hsc
      by_cases hoo : o' = o
      · rw [if_pos ⟨hrr, hoo⟩]
      · rw [listHasUnrevoked_append] at hsc
        have hone : listHasUnrevoked [freshGrant o blk.timestamp] o' = false := by
          simp [listHasUnrevoked, freshGrant, Ne.symm hoo]
        rw [hone, Bool.or_false] at hsc
        rw [if_neg (by intro hc; exact hoo hc.2), hrr]
        exact hinv.cacheSound r o' hsc
    · rw [if_neg hrr] at hsc
      rw [if_neg (by intro hc; exact hrr hc.1)]
      exact hinv.cacheSound r' o' hsc
  · intro r' hr'
    simp only [updMap] at hr'
    by_cases hrr : r' = r
    · subst hrr; exact hmem
    · rw [if_neg hrr] at hr'
      exact hinv.accessDom r' hr'

theorem inv_revoke {s s' : HState} {caller o : Addr} {blk : BlockEnv}
    {r : RecordId} (hinv : Inv s) (h : revokeAccess s caller blk r o = .ok s') :
    Inv s' := by
  obtain ⟨-, -, hact, -, -, -, -, gs, hrf, rfl⟩ := revokeAccess_ok h
  obtain ⟨hother, hallrev, hnone⟩ := revokeFirst_result (hinv.lastActive r o) hrf
  have hmem : r ∈ s.allRecordIds :=
    hinv.recordsDom r (isSome_of_recActive hact)
  refine ⟨?_, ?_, hinv.idsIndexed, hinv.recordsDom, ?_, hinv.zeroNoOrg⟩
  · intro r' o' g hg
    simp only [updMap] at hg
    by_cases hrr : r' = r
    · rw [if_pos hrr] at hg
      by_cases hoo : o' = o
      · subst hoo
        exact hallrev g (List.dropLast_subset _ hg)
      · rw [hother o' hoo] at hg
        subst hrr
        exact hinv.lastActive r' o' g hg
    · rw [if_neg hrr] at hg
      exact hinv.lastActive r' o' g hg
  · intro r' o' hsc
    simp only [updMap, updMap2] at hsc ⊢
    by_cases hrr : r' = r
    · rw [if_pos hrr] at hsc
      by_cases hoo : o' = o
      · subst hoo
        rw [hnone] at hsc
        exact Bool.noConfusion hsc
      · have hsc' : listHasUnrevoked (s.recordAccess r) o' = true := by
          rw [← listHasUnrevoked_entriesFor, ← hother o' hoo,
            listHasUnrevoked_entriesFor]
          exact hsc
        rw [if_neg (by intro hc; exact hoo hc.2), hrr]
        exact hinv.cacheSound r o' hsc'
    · rw [if_neg hrr] at hsc
      rw [if_neg (by intro hc; exact hrr hc.1)]
      exact hinv.cacheSound r' o' hsc
  · intro r' hr'
    simp only [updMap] at hr'
    by_cases hrr : r' = r
    · subst hrr; exact hmem
    · rw [if_neg hrr] at hr'
      exact hinv.accessDom r' hr'

theorem inv_step {s s' : HState} (hinv : Inv s) (h : Step s s') : Inv s' := by
  cases h with
  | register _ _ hop => exact inv_register hinv hop
  | batchRegister _ _ hop => exact inv_batch hinv hop
  | create _ _ _ _ _ _ hop => exact inv_create hinv hop
  | grant _ _ _ _ hop => exact inv_grant hinv hop
  | revoke _ _ _ _ hop => exact inv_revoke hinv hop
  | update _ _ _ _ _ hop => exact inv_update hinv hop
  | deactivate _ _ hop => exact inv_deactivate hinv hop
  | doPause _ hop => exact inv_pause hinv hop
  | doUnpause _ hop => exact inv_unpause hinv hop

/-- Every reachable contract state satisfies the invariant. -/
theorem reachable_inv {s : HState} (h : Reachable s) : Inv s := by
  induction h with
  | init d => exact inv_init d
  | step _ hstep ih => exact inv_step ih hstep

theorem recActive_of_hasAccess {s : HState} {r : RecordId} {o : Addr}
    (h : _hasAccess s r o = true) : recActive (s.records r) = true := by
  by_contra hx
  rw [Bool.not_eq_true] at hx
  unfold _hasAccess at h
  rw [hx] at h
  simp at h

/-- `revokeAccess` succeeds whenever its checks pass, and its effect is the
loop result plus the cache clear. -/
theorem revokeAccess_succeeds {s : HState} {caller o : Addr} {blk : BlockEnv}
    {r : RecordId}
    (h1 : s.orgRole caller = true) (h2 : s.paused = false) (h4 : o ≠ 0)
    (h5 : _hasAccess s r caller = true) (h6 : o ≠ caller)
    (h7 : _hasAccess s r o = true) :
    ∃ gs, revokeFirst (s.recordAccess r) o blk.timestamp = some gs ∧
      revokeAccess s caller blk r o = .ok { s with
        recordAccess := updMap s.recordAccess r gs,
        hasAccessCache := updMap2 s.hasAccessCache r o false } := by
  have hact : recActive (s.records r) = true := recActive_of_hasAccess h7
  have hscan : listHasUnrevoked (s.recordAccess r) o = true :=
    (_hasAccess_eq_true.mp h7).2.2
  obtain ⟨gs, hgs⟩ : ∃ gs,
      revokeFirst (s.recordAccess r) o blk.timestamp = some gs := by
    have hs := @revokeFirst_isSome (s.recordAccess r) o blk.timestamp
    rw [hscan] at hs
    exact Option.isSome_iff_exists.mp hs
  refine ⟨gs, hgs, ?_⟩
  unfold revokeAccess
  rw [if_neg (by simp [h1]), if_neg (by simp [h2]), if_neg (by simp [hact]),
    if_neg h4, if_neg (by simp [h5]), if_neg h6, if_neg (by simp [h7]), hgs]

/-- `grantAccess` succeeds whenever its checks pass. -/
theorem grantAccess_succeeds {s : HState} {caller o : Addr} {blk : BlockEnv}
    {r : RecordId}
    (h1 : s.orgRole caller = true) (h2 : s.paused = false)
    (h3 : recActive (s.records r) = true) (h4 : o ≠ 0)
    (h5 : s.orgRole o = true) (h6 : _hasAccess s r caller = true)
    (h7 : _hasAccess s r o = false) :
    grantAccess s caller blk r o = .ok { s with
      recordAccess := updMap s.recordAccess r
        (s.recordAccess r ++ [freshGrant o blk.timestamp]),
      hasAccessCache := updMap2 s.hasAccessCache r o true,
      organizationRecords := updMap s.organizationRecords o
        (s.organizationRecords o ++ [r]) } := by
  unfold grantAccess
  rw [if_neg (by simp [h1]), if_neg (by simp [h2]), if_neg (by simp [h3]),
    if_neg h4, if_neg (by simp [h5]), if_neg (by simp [h6]),
    if_neg (by simp [h7])]

/-- Immediately after a successful `grantAccess`, the grantee has access. -/
theorem hasAccess_after_grant {s s' : HState} {caller o : Addr}
    {blk : BlockEnv} {r : RecordId}
    (h : grantAccess s caller blk r o = .ok s') : hasAccess s' r o = true := by
  obtain ⟨-, -, hact, -, -, -, -, rfl⟩ := grantAccess_ok h
  simp [hasAccess, _hasAccess, hact, updMap, updMap2, listHasUnrevoked_append,
    listHasUnrevoked, freshGrant]

/-- Immediately after a successful `revokeAccess`, the target has no access
(the cache entry is cleared and the scan finds nothing). -/
theorem hasAccess_after_revoke {s s' : HState} {caller o : Addr}
    {blk : BlockEnv} {r : RecordId}
    (h : revokeAccess s caller blk r o = .ok s') : hasAccess s' r o = false := by
  obtain ⟨-, -, hact, -, -, -, -, gs, hgs, rfl⟩ := revokeAccess_ok h
  simp [hasAccess, _hasAccess, hact, updMap2]

/-- Immediately after a successful `createRecord`, the creator has access. -/
theorem hasAccess_after_create {s s' : HState} {caller p : Addr}
    {blk : BlockEnv} {dh dl : String} {id : RecordId}
    (h : createRecord s caller blk p dh dl = .ok (id, s')) :
    hasAccess s' id caller = true := by
  obtain ⟨-, -, -, -, -, rfl⟩ := createRecord_ok h
  simp [hasAccess, _hasAccess, createdState, updMap, updMap2, recActive,
    listHasUnrevoked_append, listHasUnrevoked, freshGrant]

/-- Every transaction only ever appends to the global record-id list. -/
theorem step_ids_mono {s s' : HState} (h : Step s s') :
    ∀ x ∈ s.allRecordIds, x ∈ s'.allRecordIds := by
  intro x hx
  cases h with
  | register _ _ hop =>
    obtain ⟨-, -, -, -, rfl⟩ := registerOrganization_ok hop
    exact hx
  | batchRegister _ _ hop =>
    obtain ⟨-, -, rfl⟩ := batchRegisterOrganizations_ok hop
    rw [(regFold_frame _ _).2.2.2.2.2.1]
    exact hx
  | create _ _ _ _ _ _ hop =>
    obtain ⟨-, -, -, -, -, rfl⟩ := createRecord_ok hop
    exact List.mem_append_left _ hx
  | grant _ _ _ _ hop =>
    obtain ⟨-, -, -, -, -, -, -, rfl⟩ := grantAccess_ok hop
    exact hx
  | revoke _ _ _ _ hop =>
    obtain ⟨-, -, -, -, -, -, -, gs, -, rfl⟩ := revokeAccess_ok hop
    exact hx
  | update _ _ _ _ _ hop =>
    obtain ⟨-, -, -, -, r0, -, rfl⟩ := updateRecord_ok hop
    exact hx
  | deactivate _ _ hop =>
    obtain ⟨-, -, r0, -, -, rfl⟩ := deactivateRecord_ok hop
    exact hx
  | doPause _ hop =>
    obtain ⟨-, -, rfl⟩ := pause_ok hop
    exact hx
  | doUnpause _ hop =>
    obtain ⟨-, -, rfl⟩ := unpause_ok hop
    exact hx

theorem steps_ids_mono {s t : HState} (h : Steps s t) :
    ∀ x ∈ s.allRecordIds, x ∈ t.allRecordIds := by
  induction h with
  | refl => exact fun x hx => hx
  | tail _ hstep ih => exact fun x hx => step_ids_mono hstep x (ih x hx)

/-- No transaction can reactivate (or remove) a deactivated record slot. -/
theorem step_preserves_inactive {s s' : HState} (hinv : Inv s)
    (hstep : Step s s') {r : RecordId}
    (h : ∃ rr, s.records r = some rr ∧ rr.isActive = false) :
    ∃ rr, s'.records r = some rr ∧ rr.isActive = false := by
  obtain ⟨rr, hrr, hfalse⟩ := h
  cases hstep with
  | register _ _ hop =>
    obtain ⟨-, -, -, -, rfl⟩ := registerOrganization_ok hop
    exact ⟨rr, hrr, hfalse⟩
  | batchRegister _ _ hop =>
    obtain ⟨-, -, rfl⟩ := batchRegisterOrganizations_ok hop
    rw [(regFold_frame _ _).1]
    exact ⟨rr, hrr, hfalse⟩
  | create _ _ _ _ _ id hop =>
    obtain ⟨-, -, -, hid, -, rfl⟩ := createRecord_ok hop
    have hne : r ≠ id := by
      intro hcontra
      have hmem : r ∈ s.allRecordIds :=
        hinv.recordsDom r (by rw [hrr]; rfl)
      rw [hcontra, hid] at hmem
      exact freshId_not_mem hinv _ _ _ _ _ hmem
    refine ⟨rr, ?_, hfalse⟩
    simp only [createdState, updMap]
    rw [if_neg hne]
    exact hrr
  | grant _ _ _ _ hop =>
    obtain ⟨-, -, -, -, -, -, -, rfl⟩ := grantAccess_ok hop
    exact ⟨rr, hrr, hfalse⟩
  | revoke _ _ _ _ hop =>
    obtain ⟨-, -, -, -, -, -, -, gs, -, rfl⟩ := revokeAccess_ok hop
    exact ⟨rr, hrr, hfalse⟩
  | update _ _ rid _ _ hop =>
    obtain ⟨-, -, hact, -, r0, hr0, rfl⟩ := updateRecord_ok hop
    have hne : r ≠ rid := by
      intro hcontra
      rw [← hcontra, hrr] at hact
      rw [show recActive (some rr) = rr.isActive from rfl, hfalse] at hact
      exact Bool.noConfusion hact
    refine ⟨rr, ?_, hfalse⟩
    simp only [updMap]
    rw [if_neg hne]
    exact hrr
  | deactivate _ rid hop =>
    obtain ⟨-, hact, r0, hr0, -, rfl⟩ := deactivateRecord_ok hop
    have hne : r ≠ rid := by
      intro hcontra
      rw [← hcontra, hrr] at hact
      rw [show recActive (some rr) = rr.isActive from rfl, hfalse] at hact
      exact Bool.noConfusion hact
    refine ⟨rr, ?_, hfalse⟩
    simp only [updMap]
    rw [if_neg hne]
    exact hrr
  | doPause _ hop =>
    obtain ⟨-, -, rfl⟩ := pause_ok hop
    exact ⟨rr, hrr, hfalse⟩
  | doUnpause _ hop =>
    obtain ⟨-, -, rfl⟩ := unpause_ok hop
    exact ⟨rr, hrr, hfalse⟩

/-! ### A concrete execution used to exercise the theorems

Deployer/admin is address `1`; organizations `2` and `3` are registered;
organization `2` creates a record for patient `4` and grants access to `3`.
All transactions run in a block environment with timestamp, prevrandao and
number all `0`. -/

/-- Concrete block environment. -/
def blk0 : BlockEnv := { timestamp := 0, prevrandao := 0, number := 0 }

def exS0 : HState := initState 1

def exS1 : HState :=
  match registerOrganization exS0 1 2 with
  | .ok s => s
  | .error _ => exS0

theorem hS1 : registerOrganization exS0 1 2 = .ok exS1 := rfl

def exS2 : HState :=
  match registerOrganization exS1 1 3 with
  | .ok s => s
  | .error _ => exS1

theorem hS2 : registerOrganization exS1 1 3 = .ok exS2 := rfl

/-- The id of the concrete record created by organization `2` for patient `4`. -/
def exRid : RecordId := newRecordId exS2 2 blk0 4

def exS3 : HState :=
  match createRecord exS2 2 blk0 4 "H1" "L1" with
  | .ok (_, s) => s
  | .error _ => exS2

theorem hS3 : createRecord exS2 2 blk0 4 "H1" "L1" = .ok (exRid, exS3) := rfl

def exS4 : HState :=
  match grantAccess exS3 2 blk0 exRid 3 with
  | .ok s => s
  | .error _ => exS3

theorem hS4 : grantAccess exS3 2 blk0 exRid 3 = .ok exS4 := rfl

def exS5 : HState :=
  match revokeAccess exS4 2 blk0 exRid 3 with
  | .ok s => s
  | .error _ => exS4

theorem hS5 : revokeAccess exS4 2 blk0 exRid 3 = .ok exS5 := rfl

/-- The state after organization `2` deactivates the record (from `exS3`). -/
def exSd : HState :=
  match deactivateRecord exS3 2 exRid with
  | .ok s => s
  | .error _ => exS3

theorem hSd : deactivateRecord exS3 2 exRid = .ok exSd := rfl

/-- A paused state with admin `1` and organization `2` registered. -/
def exPS : HState :=
  match pause exS1 1 with
  | .ok s => s
  | .error _ => exS1

theorem hPS : pause exS1 1 = .ok exPS := rfl

/-- The id derived by a second `createRecord` with identical inputs and
block environment, issued right after the first. -/
def exRid2 : RecordId := newRecordId exS3 2 blk0 4

def exS3b : HState :=
  match createRecord exS3 2 blk0 4 "H1" "L1" with
  | .ok (_, s) => s
  | .error _ => exS3

theorem hS3b : createRecord exS3 2 blk0 4 "H1" "L1" = .ok (exRid2, exS3b) := rfl

/-- The state after organization `2` updates the record content (from `exS3`). -/
def exSu : HState :=
  match updateRecord exS3 2 blk0 exRid "H2" "L2" with
  | .ok s => s
  | .error _ => exS3

theorem hSu : updateRecord exS3 2 blk0 exRid "H2" "L2" = .ok exSu := rfl

theorem reach_exS0 : Reachable exS0 := Reachable.init 1

theorem reach_exS1 : Reachable exS1 :=
  reach_exS0.step (Step.register 1 2 hS1)

theorem reach_exS2 : Reachable exS2 :=
  reach_exS1.step (Step.register 1 3 hS2)

theorem reach_exS3 : Reachable exS3 :=
  reach_exS2.step (Step.create 2 blk0 4 "H1" "L1" exRid hS3)

theorem reach_exS4 : Reachable exS4 :=
  reach_exS3.step (Step.grant 2 blk0 exRid 3 hS4)

theorem reach_exSd : Reachable exSd :=
  reach_exS3.step (Step.deactivate 2 exRid hSd)

theorem reach_exPS : Reachable exPS :=
  reach_exS1.step (Step.doPause 1 hPS)

theorem count_map_org (F : List AccessGrant) (o : Addr) :
    (F.map (·.organization)).count o =
      (F.filter fun g => g.organization == o).length := by
  induction F with
  | nil => rfl
  | cons g rest ih =>
    rw [List.map_cons, List.filter_cons]
    by_cases hg : (g.organization == o) = true
    · rw [if_pos hg]
      simp [List.count_cons, hg, ih]
    · rw [if_neg hg]
      simp only [Bool.not_eq_true] at hg
      simp [List.count_cons, hg, ih]

theorem getRecordAccess_count (s : HState) (r : RecordId) (o : Addr) :
    (getRecordAccess s r).count o = countActive (s.recordAccess r) o := by
  have hswap : ((s.recordAccess r).filter fun g => !g.isRevoked).filter
        (fun g => g.organization == o) =
      ((s.recordAccess r).filter fun g => g.organization == o).filter
        (fun g => !g.isRevoked) := by
    rw [List.filter_filter, List.filter_filter]
    exact List.filter_congr fun a _ => Bool.and_comm _ _
  rw [getRecordAccess, count_map_org, hswap]
  rfl

/-- C1.  `hasAccess(recordId, organization)` is `false` whenever the record
is missing or inactive, and — in any reachable state — it is `true` exactly
when the most recent `AccessGrant` entry for the `(recordId, organization)`
pair exists and is not revoked. -/
theorem claim_C1 {s : HState} (hreach : Reachable s) (r : RecordId) (o : Addr) :
    (recActive (s.records r) = false → hasAccess s r o = false) ∧
    (hasAccess s r o = true ↔
      recActive (s.records r) = true ∧
      ∃ g, (entriesFor (s.recordAccess r) o).getLast? = some g ∧
        g.isRevoked = false) := by
  have hinv := reachable_inv hreach
  constructor
  · intro hin
    simp [hasAccess, _hasAccess, hin]
  · constructor
    · intro h
      obtain ⟨hact, hcache, hscan⟩ := _hasAccess_eq_true.mp h
      refine ⟨hact, ?_⟩
      obtain ⟨g, hgmem, hgorg, hgrev⟩ := listHasUnrevoked_iff.mp hscan
      have hgE : g ∈ entriesFor (s.recordAccess r) o :=
        mem_entriesFor.mpr ⟨hgmem, hgorg⟩
      have hne : entriesFor (s.recordAccess r) o ≠ [] := List.ne_nil_of_mem hgE
      refine ⟨(entriesFor (s.recordAccess r) o).getLast hne,
        List.getLast?_eq_getLast _ hne, ?_⟩
      have hsplit := List.dropLast_append_getLast hne
      rw [← hsplit] at hgE
      rcases List.mem_append.mp hgE with hmem | hmem
      · rw [hinv.lastActive r o g hmem] at hgrev
        exact Bool.noConfusion hgrev
      · rw [List.mem_singleton] at hmem
        rw [← hmem]
        exact hgrev
    · rintro ⟨hact, g, hlast, hgrev⟩
      have hne : entriesFor (s.recordAccess r) o ≠ [] := by
        intro hnil
        rw [hnil] at hlast
        exact Option.noConfusion hlast
      have hgE : g ∈ entriesFor (s.recordAccess r) o := by
        rw [List.getLast?_eq_getLast _ hne] at hlast
        rw [← Option.some.inj hlast]
        exact List.getLast_mem hne
      obtain ⟨hgmem, hgorg⟩ := mem_entriesFor.mp hgE
      have hscan : listHasUnrevoked (s.recordAccess r) o = true :=
        listHasUnrevoked_iff.mpr ⟨g, hgmem, hgorg, hgrev⟩
      exact _hasAccess_eq_true.mpr ⟨hact, hinv.cacheSound r o hscan, hscan⟩

/-- C1 witness: in the concrete reachable state `exS4`, organization `3`
has access, as predicted by the most-recent-entry characterization. -/
theorem claim_C1_witness : hasAccess exS4 exRid 3 = true :=
  (claim_C1 reach_exS4 exRid 3).2.mpr
    ⟨by decide, freshGrant 3 0, by decide, by decide⟩

/-- C2.  In every reachable state each `(record, organization)` pair has at
most one unrevoked `AccessGrant` entry, so `getRecordAccess` lists no revoked
organization and no organization twice. -/
theorem claim_C2 {s : HState} (hreach : Reachable s) (r : RecordId) :
    (∀ o, countActive (s.recordAccess r) o ≤ 1) ∧
    (getRecordAccess s r).Nodup ∧
    ∀ o ∈ getRecordAccess s r,
      listHasUnrevoked (s.recordAccess r) o = true := by
  have hinv := reachable_inv hreach
  refine ⟨fun o => countActive_le_one (hinv.lastActive r o), ?_, ?_⟩
  · rw [List.nodup_iff_count_le_one]
    intro o
    rw [getRecordAccess_count]
    exact countActive_le_one (hinv.lastActive r o)
  · intro o ho
    unfold getRecordAccess at ho
    obtain ⟨g, hgmem, hgorg⟩ := List.mem_map.mp ho
    obtain ⟨hgs, hgrev⟩ := List.mem_filter.mp hgmem
    exact listHasUnrevoked_iff.mpr ⟨g, hgs, hgorg, by simpa using hgrev⟩

/-- C2 witness: in the concrete reachable state `exS4` the access list of the
record has no duplicates. -/
theorem claim_C2_witness : (getRecordAccess exS4 exRid).Nodup :=
  (claim_C2 reach_exS4 exRid).2.1

/-- C3.  In a reachable state, revoking access from `o` makes `hasAccess`
false, and a subsequent `grantAccess` by any caller with access succeeds and
restores it. -/
theorem claim_C3 {s : HState} {caller o : Addr} {blk : BlockEnv} {r : RecordId}
    (hreach : Reachable s)
    (hcr : s.orgRole caller = true) (hor : s.orgRole o = true)
    (hne : o ≠ caller) (hca : hasAccess s r caller = true)
    (hoa : hasAccess s r o = true) (hp : s.paused = false) :
    ∃ s', revokeAccess s caller blk r o = .ok s' ∧
      hasAccess s' r o = false ∧
      ∀ c2 blk2, s'.orgRole c2 = true → hasAccess s' r c2 = true →
        ∃ s'', grantAccess s' c2 blk2 r o = .ok s'' ∧
          hasAccess s'' r o = true := by
  have hinv := reachable_inv hreach
  have ho0 : o ≠ 0 := by
    intro h0
    rw [h0, hinv.zeroNoOrg] at hor
    exact Bool.noConfusion hor
  obtain ⟨gs, hgs, heq⟩ := revokeAccess_succeeds hcr hp ho0 hca hne hoa
  refine ⟨_, heq, hasAccess_after_revoke heq, ?_⟩
  intro c2 blk2 hc2 hca2
  have hact : recActive (s.records r) = true := recActive_of_hasAccess hoa
  have hgrant := @grantAccess_succeeds _ c2 o blk2 r hc2 hp hact ho0 hor hca2
    (hasAccess_after_revoke heq)
  exact ⟨_, hgrant, hasAccess_after_grant hgrant⟩

/-- C3 witness: the revoke–regrant round trip on the concrete state `exS4`
(organization `2` revokes and regrants access of organization `3`). -/
theorem claim_C3_witness :
    hasAccess exS5 exRid 3 = false ∧
    ∃ s'', grantAccess exS5 2 blk0 exRid 3 = .ok s'' ∧
      hasAccess s'' exRid 3 = true := by
  obtain ⟨s', heq, hfalse, hregrant⟩ :=
    @claim_C3 exS4 2 3 blk0 exRid reach_exS4 (by decide) (by decide)
      (by decide) (by decide) (by decide) (by decide)
  have hs' : s' = exS5 := Except.ok.inj (heq.symm.trans hS5)
  subst hs'
  exact ⟨hfalse, hregrant 2 blk0 (by decide) (by decide)⟩

/-- C5.  Two successful `createRecord` calls — the second issued any number
of transactions after the first, with arbitrary (possibly colliding) block
environments — return distinct record ids. -/
theorem claim_C5 {s1 t1 s2 t2 : HState} {c1 c2 p1 p2 : Addr}
    {b1 b2 : BlockEnv} {dh1 dl1 dh2 dl2 : String} {id1 id2 : RecordId}
    (hreach : Reachable s1)
    (hc1 : createRecord s1 c1 b1 p1 dh1 dl1 = .ok (id1, t1))
    (hsteps : Steps t1 s2)
    (hc2 : createRecord s2 c2 b2 p2 dh2 dl2 = .ok (id2, t2)) :
    id1 ≠ id2 := by
  have hreach2 : Reachable s2 :=
    (hreach.step (Step.create c1 b1 p1 dh1 dl1 id1 hc1)).of_steps hsteps
  have hinv2 := reachable_inv hreach2
  obtain ⟨-, -, -, hid1, -, ht1⟩ := createRecord_ok hc1
  have hmem1 : id1 ∈ t1.allRecordIds := by
    rw [ht1]
    simp [createdState]
  have hmem2 : id1 ∈ s2.allRecordIds := steps_ids_mono hsteps id1 hmem1
  obtain ⟨-, -, -, hid2, -, -⟩ := createRecord_ok hc2
  intro heq
  rw [heq, hid2] at hmem2
  exact freshId_not_mem hinv2 _ _ _ _ _ hmem2

/-- C5 witness: the two concrete back-to-back creations with identical
caller, patient, payload and block environment return different ids. -/
theorem claim_C5_witness : exRid ≠ exRid2 :=
  claim_C5 reach_exS2 hS3 (Steps.refl exS3) hS3b

/-- C6.  After a successful `deactivateRecord`, a second `deactivateRecord`
on the same record fails with the record-missing-or-inactive error, and
`hasAccess` is false for every organization in every later state. -/
theorem claim_C6 {s s' : HState} {caller : Addr} {r : RecordId}
    (hreach : Reachable s) (h : deactivateRecord s caller r = .ok s') :
    (∀ caller2, deactivateRecord s' caller2 r = .error .recordInactive) ∧
    ∀ s2, Steps s' s2 → ∀ o, hasAccess s2 r o = false := by
  obtain ⟨hp, hact, r0, hr0, hcred, hs'⟩ := deactivateRecord_ok h
  have hreach' : Reachable s' := hreach.step (Step.deactivate caller r h)
  have hinactive' : ∃ rr, s'.records r = some rr ∧ rr.isActive = false := by
    rw [hs']
    exact ⟨{ r0 with isActive := false }, by simp [updMap], rfl⟩
  constructor
  · intro caller2
    obtain ⟨rr, hrr, hfalse⟩ := hinactive'
    have hp' : s'.paused = false := by rw [hs']; exact hp
    unfold deactivateRecord
    rw [if_neg (by simp [hp']), if_pos (by simp [recActive, hrr, hfalse])]
  · intro s2 hsteps
    have key : ∃ rr, s2.records r = some rr ∧ rr.isActive = false := by
      induction hsteps with
      | refl => exact hinactive'
      | tail hst hstep ih =>
        exact step_preserves_inactive
          (reachable_inv (hreach'.of_steps hst)) hstep ih
    intro o
    obtain ⟨rr, hrr, hfalse⟩ := key
    simp [hasAccess, _hasAccess, recActive, hrr, hfalse]

/-- C6 witness: after the concrete deactivation, a second deactivation by
any caller (here `5`) fails with the inactive-record error and the creator
organization `2` has lost access. -/
theorem claim_C6_witness :
    deactivateRecord exSd 5 exRid = .error .recordInactive ∧
    hasAccess exSd exRid 2 = false :=
  ⟨(claim_C6 reach_exS3 hSd).1 5,
   (claim_C6 reach_exS3 hSd).2 exSd (Steps.refl exSd) 2⟩

/-- C7.  Immediately after a successful `createRecord` by `caller`, the
creator has access to the new record. -/
theorem claim_C7 {s s' : HState} {caller p : Addr} {blk : BlockEnv}
    {dh dl : String} {id : RecordId}
    (h : createRecord s caller blk p dh dl = .ok (id, s')) :
    hasAccess s' id caller = true :=
  hasAccess_after_create h

/-- C7 witness: the creator organization `2` has access to the concrete
record right after creation. -/
theorem claim_C7_witness : hasAccess exS3 exRid 2 = true :=
  claim_C7 hS3

/-- C9.  A successful `updateRecord` changes only the record's
`encryptedDataHash`, `dataLocation` and `lastUpdated` fields; its identity
fields, activity flag, the grant lists, every other record, all indices,
roles and the pause flag are untouched. -/
theorem claim_C9 {s s' : HState} {caller : Addr} {blk : BlockEnv}
    {r : RecordId} {dh dl : String}
    (h : updateRecord s caller blk r dh dl = .ok s') :
    ∃ r0 r1, s.records r = some r0 ∧ s'.records r = some r1 ∧
      r1.encryptedDataHash = dh ∧ r1.dataLocation = dl ∧
      r1.lastUpdated = blk.timestamp ∧
      r1.patientAddress = r0.patientAddress ∧ r1.createdBy = r0.createdBy ∧
      r1.timestamp = r0.timestamp ∧ r1.isActive = r0.isActive ∧
      r1.recordId = r0.recordId ∧
      (∀ r', r' ≠ r → s'.records r' = s.records r') ∧
      s'.recordAccess = s.recordAccess ∧
      s'.patientRecords = s.patientRecords ∧
      s'.organizationRecords = s.organizationRecords ∧
      s'.hasAccessCache = s.hasAccessCache ∧
      s'.allRecordIds = s.allRecordIds ∧
      s'.registeredOrganizations = s.registeredOrganizations ∧
      s'.orgRole = s.orgRole ∧ s'.adminRole = s.adminRole ∧
      s'.paused = s.paused := by
  obtain ⟨-, -, -, -, r0, hr0, rfl⟩ := updateRecord_ok h
  exact ⟨r0,
    { r0 with encryptedDataHash := dh, dataLocation := dl,
              lastUpdated := blk.timestamp },
    hr0, by simp [updMap], rfl, rfl, rfl, rfl, rfl, rfl, rfl, rfl,
    fun r' hr' => by simp [updMap, hr'], rfl, rfl, rfl, rfl, rfl, rfl, rfl,
    rfl, rfl⟩

/-- C9 witness: the concrete update of the record's content leaves the grant
ledger, the indices and the record's identity fields unchanged. -/
theorem claim_C9_witness :
    exSu.recordAccess = exS3.recordAccess ∧
    exSu.allRecordIds = exS3.allRecordIds ∧
    (exSu.records exRid).isSome = true := by
  obtain ⟨r0, r1, hr0, hr1, -, -, -, -, -, -, -, -, -, hacc, -, -, -, hids, -⟩ :=
    claim_C9 hSu
  exact ⟨hacc, hids, by rw [hr1]; rfl⟩

/-- C10.  In every reachable state the cached access check `_hasAccess`
agrees with the cache-free check (record activity plus the authoritative
scan of the grant list): the cache never disagrees with the ledger. -/
theorem claim_C10 {s : HState} (hreach : Reachable s) (r : RecordId)
    (o : Addr) : _hasAccess s r o = uncachedHasAccess s r o := by
  have hinv := reachable_inv hreach
  unfold _hasAccess uncachedHasAccess
  by_cases hact : recActive (s.records r) = true
  · by_cases hc : s.hasAccessCache r o = true
    · simp [hact, hc]
    · rw [Bool.not_eq_true] at hc
      have hscan : listHasUnrevoked (s.recordAccess r) o = false := by
        by_contra hx
        rw [Bool.not_eq_false] at hx
        rw [hinv.cacheSound r o hx] at hc
        exact Bool.noConfusion hc
      simp [hact, hc, hscan]
  · rw [Bool.not_eq_true] at hact
    simp [hact]

/-- C10 witness: cached and cache-free checks agree on the concrete state
`exS5` (after a revocation, where a stale cache would be visible). -/
theorem claim_C10_witness :
    _hasAccess exS5 exRid 3 = uncachedHasAccess exS5 exRid 3 :=
  claim_C10 (reach_exS4.step (Step.revoke 2 blk0 exRid 3 hS5)) exRid 3

/-- C4 counterexample: in the reachable state `exSd` the record has been
deactivated (`isActive = false`), yet it still appears in
`getPatientRecords`, `getPatientRecordCount`, `getOrganizationRecords` and
`getTotalRecordCount` — the index-based reads do not exclude inactive
records. -/
theorem claim_C4_counterexample :
    Reachable exSd ∧ recActive (exSd.records exRid) = false ∧
    exRid ∈ getPatientRecords exSd 4 ∧ getPatientRecordCount exSd 4 = 1 ∧
    exRid ∈ getOrganizationRecords exSd 2 ∧ getTotalRecordCount exSd = 1 :=
  ⟨reach_exSd, by decide, by decide, by decide, by decide, by decide⟩

/-- C4 (amended).  Deactivating a record changes no derived index:
`getPatientRecords`, `getPatientRecordCount`, `getOrganizationRecords` and
`getTotalRecordCount` all still include the record, while `getRecord`
returns the record (now with `isActive = false`) regardless of its activity
state. -/
theorem claim_C4_amended {s s' : HState} {caller : Addr} {r : RecordId}
    (h : deactivateRecord s caller r = .ok s') :
    (∀ p, getPatientRecords s' p = getPatientRecords s p) ∧
    (∀ p, getPatientRecordCount s' p = getPatientRecordCount s p) ∧
    (∀ o, getOrganizationRecords s' o = getOrganizationRecords s o) ∧
    getTotalRecordCount s' = getTotalRecordCount s ∧
    ∃ r0, s.records r = some r0 ∧ r0.isActive = true ∧
      getRecord s' r = some { r0 with isActive := false } := by
  obtain ⟨-, hact, r0, hr0, -, rfl⟩ := deactivateRecord_ok h
  refine ⟨fun p => rfl, fun p => rfl, fun o => rfl, rfl, r0, hr0, ?_, ?_⟩
  · rw [hr0] at hact
    exact hact
  · simp [getRecord, updMap]

/-- C4 (amended) witness: concrete deactivation leaves the patient index,
the creator-organization index and the total count unchanged. -/
theorem claim_C4_amended_witness :
    getPatientRecords exSd 4 = getPatientRecords exS3 4 ∧
    getOrganizationRecords exSd 2 = getOrganizationRecords exS3 2 ∧
    getTotalRecordCount exSd = getTotalRecordCount exS3 ∧
    getPatientRecordCount exSd 4 = getPatientRecordCount exS3 4 := by
  obtain ⟨h1, h2, h3, h4, -⟩ := claim_C4_amended hSd
  exact ⟨h1 4, h3 2, h4, h2 4⟩

/-- C8 counterexample: in the reachable paused state `exPS`, the write
operation `registerOrganization` issued by the role-less caller `5` is
rejected with the missing-role error, not with the paused error — so not
every write in a paused state is rejected with `Paused`. -/
theorem claim_C8_counterexample :
    Reachable exPS ∧ exPS.paused = true ∧
    registerOrganization exPS 5 6 = .error .missingRole ∧
    HError.missingRole ≠ HError.enforcedPause :=
  ⟨reach_exPS, by decide, rfl, by decide⟩

/-- C8 (amended).  While the system is paused every write operation is
rejected; the error is `Paused` for any caller who passes the checks that
precede the pause check (the required role, and address validity for
`registerOrganization`) — `deactivateRecord` rejects every caller with
`Paused` since nothing precedes its pause check.  Every read returns exactly
what it would return in the same state with the pause flag cleared, and only
an admin can toggle the pause state. -/
theorem claim_C8_amended {s : HState} (hp : s.paused = true) :
    (∀ caller org, s.adminRole caller = true → org ≠ 0 →
      registerOrganization s caller org = .error .enforcedPause) ∧
    (∀ caller orgs, s.adminRole caller = true →
      batchRegisterOrganizations s caller orgs = .error .enforcedPause) ∧
    (∀ caller blk p dh dl, s.orgRole caller = true →
      createRecord s caller blk p dh dl = .error .enforcedPause) ∧
    (∀ caller blk r o, s.orgRole caller = true →
      grantAccess s caller blk r o = .error .enforcedPause) ∧
    (∀ caller blk r o, s.orgRole caller = true →
      revokeAccess s caller blk r o = .error .enforcedPause) ∧
    (∀ caller blk r dh dl, s.orgRole caller = true →
      updateRecord s caller blk r dh dl = .error .enforcedPause) ∧
    (∀ caller r, deactivateRecord s caller r = .error .enforcedPause) ∧
    (∀ r, getRecord s r = getRecord { s with paused := false } r) ∧
    (∀ r o, hasAccess s r o = hasAccess { s with paused := false } r o) ∧
    (∀ r, getRecordAccess s r = getRecordAccess { s with paused := false } r) ∧
    (∀ p, getPatientRecords s p =
      getPatientRecords { s with paused := false } p) ∧
    (∀ o, getOrganizationRecords s o =
      getOrganizationRecords { s with paused := false } o) ∧
    (∀ p, getPatientRecordCount s p =
      getPatientRecordCount { s with paused := false } p) ∧
    getTotalRecordCount s = getTotalRecordCount { s with paused := false } ∧
    getOrganizationCount s = getOrganizationCount { s with paused := false } ∧
    (∀ caller s', pause s caller = .ok s' → s.adminRole caller = true) ∧
    (∀ caller s', unpause s caller = .ok s' → s.adminRole caller = true) := by
  refine ⟨?_, ?_, ?_, ?_, ?_, ?_, ?_, fun r => rfl, fun r o => rfl,
    fun r => rfl, fun p => rfl, fun o => rfl, fun p => rfl, rfl, rfl,
    fun caller s' hok => (pause_ok hok).1,
    fun caller s' hok => (unpause_ok hok).1⟩
  · intro caller org hrole horg
    unfold registerOrganization
    rw [if_neg (by simp [hrole]), if_neg horg, if_pos (by simp [hp])]
  · intro caller orgs hrole
    unfold batchRegisterOrganizations
    rw [if_neg (by simp [hrole]), if_pos (by simp [hp])]
  · intro caller blk p dh dl hrole
    unfold createRecord
    rw [if_neg (by simp [hrole]), if_pos (by simp [hp])]
  · intro caller blk r o hrole
    unfold grantAccess
    rw [if_neg (by simp [hrole]), if_pos (by simp [hp])]
  · intro caller blk r o hrole
    unfold revokeAccess
    rw [if_neg (by simp [hrole]), if_pos (by simp [hp])]
  · intro caller blk r dh dl hrole
    unfold updateRecord
    rw [if_neg (by simp [hrole]), if_pos (by simp [hp])]
  · intro caller r
    unfold deactivateRecord
    rw [if_pos (by simp [hp])]

/-- C8 (amended) witness: in the concrete paused state `exPS`, a create by
the registered organization `2`, a deactivation by an arbitrary caller and a
registration by the admin `1` are all rejected with the paused error. -/
theorem claim_C8_amended_witness :
    createRecord exPS 2 blk0 4 "H1" "L1" = .error .enforcedPause ∧
    deactivateRecord exPS 9 exRid = .error .enforcedPause ∧
    registerOrganization exPS 1 7 = .error .enforcedPause := by
  obtain ⟨hreg, -, hcreate, -, -, -, hdeact, -⟩ :=
    @claim_C8_amended exPS (by decide)
  exact ⟨hcreate 2 blk0 4 "H1" "L1" (by decide), hdeact 9 exRid,
    hreg 1 7 (by decide) (by decide)⟩

end HealthcareDB
